import Mathlib

/-!
Verification of the SEIR-with-demography script `modelo.py`.

The script defines a derivative function `model` for the four-compartment
SEIR system, integrates it with scipy's `odeint` over a fixed time grid,
and plots the four resulting series.  Below, `model` is a direct
translation of the Python function; the integration step (scipy, external
to this repository) is modelled from the specification as exact sampling
of a solution of the initial-value problem.
-/

open Real Set

/-- The SEIR derivative function, translated from `model` in `modelo.py`
(lines 47-52).  It unpacks the state `y = (S, E, I, R)` and returns the list
of derivatives `[dSdt, dEdt, dIdt, dRdt]`.  The time argument `t` is
accepted but never used, exactly as in the source. -/
def model (y : ℝ × ℝ × ℝ × ℝ) (t beta sigma gamma mu : ℝ) : List ℝ :=
  let (S, E, I, R) := y
  let dSdt := mu - beta * S * I - mu * S
  let dEdt := beta * S * I - (sigma + mu) * E
  let dIdt := sigma * E - (gamma + mu) * I
  let dRdt := gamma * I - mu * R
  [dSdt, dEdt, dIdt, dRdt]

/-- Transmission rate, line 55 of `modelo.py` (exact decimal value). -/
def beta : ℚ := 0.4091

/-- Exposure rate, line 56 of `modelo.py`. -/
def sigma : ℚ := 0.1818

/-- Recovery rate, line 57 of `modelo.py`. -/
def gamma : ℚ := 0.1428

/-- Birth/death rate, line 58 of `modelo.py`. -/
def mu : ℚ := 0.0025

/-- Initial susceptible fraction, line 61 of `modelo.py`. -/
def S0 : ℚ := 0.99991

/-- Initial exposed fraction, line 62 of `modelo.py`. -/
def E0 : ℚ := 0.001

/-- Initial infected fraction, line 63 of `modelo.py`. -/
def I0 : ℚ := 0.00008

/-- Initial recovered fraction, line 64 of `modelo.py`. -/
def R0 : ℚ := 0.0

/-- Sum of the four components of a state vector, used to express the
population-conservation properties of the system. -/
def sum4 (y : ℝ × ℝ × ℝ × ℝ) : ℝ :=
  y.1 + y.2.1 + y.2.2.1 + y.2.2.2

/-- Modelled from the spec: the script solves the initial-value problem with
scipy's `odeint` (line 70), which is not part of this repository.  Following
the specification of the integration driver, a function `y : ℝ → ℝ⁴` is a
solution of the SEIR system for parameters `β`, `σ`, `γ`, `μ` iff at every
time each component of `y` is differentiable with derivative equal to the
corresponding entry of the list returned by `model`. -/
def SolvesSEIR (y : ℝ → ℝ × ℝ × ℝ × ℝ) (β σ γ μ : ℝ) : Prop :=
  ∀ t : ℝ,
    HasDerivAt (fun s => (y s).1) ((model (y t) t β σ γ μ).getD 0 0) t ∧
    HasDerivAt (fun s => (y s).2.1) ((model (y t) t β σ γ μ).getD 1 0) t ∧
    HasDerivAt (fun s => (y s).2.2.1) ((model (y t) t β σ γ μ).getD 2 0) t ∧
    HasDerivAt (fun s => (y s).2.2.2) ((model (y t) t β σ γ μ).getD 3 0) t

lemma model_getD_zero (y : ℝ × ℝ × ℝ × ℝ) (t β σ γ μ : ℝ) :
    (model y t β σ γ μ).getD 0 0 = μ - β * y.1 * y.2.2.1 - μ * y.1 := rfl

lemma model_getD_one (y : ℝ × ℝ × ℝ × ℝ) (t β σ γ μ : ℝ) :
    (model y t β σ γ μ).getD 1 0 = β * y.1 * y.2.2.1 - (σ + μ) * y.2.1 := rfl

lemma model_getD_two (y : ℝ × ℝ × ℝ × ℝ) (t β σ γ μ : ℝ) :
    (model y t β σ γ μ).getD 2 0 = σ * y.2.1 - (γ + μ) * y.2.2.1 := rfl

lemma model_getD_three (y : ℝ × ℝ × ℝ × ℝ) (t β σ γ μ : ℝ) :
    (model y t β σ γ μ).getD 3 0 = γ * y.2.2.1 - μ * y.2.2.2 := rfl

/-- Along any solution, the component sum has derivative `μ * (1 - sum)`. -/
lemma SolvesSEIR.sum4_hasDerivAt {y : ℝ → ℝ × ℝ × ℝ × ℝ} {β σ γ μ : ℝ}
    (h : SolvesSEIR y β σ γ μ) (t : ℝ) :
    HasDerivAt (fun s => sum4 (y s)) (μ * (1 - sum4 (y t))) t := by
  obtain ⟨h1, h2, h3, h4⟩ := h t
  have H := ((h1.add h2).add h3).add h4
  have hval : (model (y t) t β σ γ μ).getD 0 0 + (model (y t) t β σ γ μ).getD 1 0 +
      (model (y t) t β σ γ μ).getD 2 0 + (model (y t) t β σ γ μ).getD 3 0 =
      μ * (1 - sum4 (y t)) := by
    rw [model_getD_zero, model_getD_one, model_getD_two, model_getD_three]
    unfold sum4
    ring
  rw [hval] at H
  exact H

/-- Any real function whose derivative is everywhere `-c` times its value
decays exactly exponentially.  This settles the linear scalar equations the
conservation and monotonicity claims reduce to. -/
lemma linear_decay (c : ℝ) (N : ℝ → ℝ)
    (hN : ∀ τ : ℝ, HasDerivAt N (-c * N τ) τ) (τ : ℝ) :
    N τ = N 0 * Real.exp (-(c * τ)) := by
  have hG : ∀ u : ℝ, HasDerivAt (fun s => N s * Real.exp (c * s)) 0 u := by
    intro u
    have hexp : HasDerivAt (fun s : ℝ => Real.exp (c * s)) (Real.exp (c * u) * c) u := by
      simpa using ((hasDerivAt_id u).const_mul c).exp
    have := (hN u).mul hexp
    have hz : -c * N u * Real.exp (c * u) + N u * (Real.exp (c * u) * c) = 0 := by ring
    rw [hz] at this
    exact this
  have hconst : N τ * Real.exp (c * τ) = N 0 * Real.exp (c * 0) :=
    is_const_of_deriv_eq_zero (fun u => (hG u).differentiableAt)
      (fun u => (hG u).deriv) τ 0
  have hne : Real.exp (c * τ) ≠ 0 := Real.exp_ne_zero _
  have : N τ = N 0 * Real.exp (c * 0) / Real.exp (c * τ) := by
    field_simp [hne] at hconst ⊢
    linarith [hconst]
  rw [this, mul_zero, Real.exp_zero, mul_one, Real.exp_neg, div_eq_mul_inv]

/-- Along any solution, the deviation of the component sum from `1` decays
exponentially at rate `μ`. -/
lemma SolvesSEIR.sum4_decay {y : ℝ → ℝ × ℝ × ℝ × ℝ} {β σ γ μ : ℝ}
    (h : SolvesSEIR y β σ γ μ) (τ : ℝ) :
    sum4 (y τ) - 1 = (sum4 (y 0) - 1) * Real.exp (-(μ * τ)) := by
  apply linear_decay μ (fun s => sum4 (y s) - 1)
  intro u
  have := (h.sum4_hasDerivAt u).sub_const 1
  have hval : μ * (1 - sum4 (y u)) = -μ * (sum4 (y u) - 1) := by ring
  rw [hval] at this
  exact this

/-- Claim C1: for every state `(S, E, I, R)`, every time `t`, and all real
parameters `beta`, `sigma`, `gamma`, `mu`, the derivative function `model`
returns exactly the four-component vector
`[mu - beta*S*I - mu*S, beta*S*I - (sigma+mu)*E, sigma*E - (gamma+mu)*I,
gamma*I - mu*R]`, in that order. -/
theorem model_returns_seir_derivatives
    (S E I R t b s g m : ℝ) :
    model (S, E, I, R) t b s g m =
      [m - b * S * I - m * S, b * S * I - (s + m) * E,
       s * E - (g + m) * I, g * I - m * R] := rfl

/-- Claim C6: `model` is time-invariant: for every state `y`, all parameters,
and any two times `t1` and `t2`, the results agree; the time argument is
never used in computing the derivatives. -/
theorem model_time_invariant
    (y : ℝ × ℝ × ℝ × ℝ) (t1 t2 b s g m : ℝ) :
    model y t1 b s g m = model y t2 b s g m := rfl

/-- Claim C2: for every state vector whose components sum to 1 and all
non-negative parameters, the four components of the derivative vector
returned by `model` sum to zero, and along any solution of the continuous
system started at total fraction 1 the per-time component sum stays within
`1e-6` of 1 at every time (it is in fact exactly 1). -/
theorem model_sum_zero_and_sum_invariant
    (β σ γ μ : ℝ) (hβ : 0 ≤ β) (hσ : 0 ≤ σ) (hγ : 0 ≤ γ) (hμ : 0 ≤ μ)
    (y : ℝ → ℝ × ℝ × ℝ × ℝ) (hy : SolvesSEIR y β σ γ μ)
    (hinit : sum4 (y 0) = 1) :
    (∀ (v : ℝ × ℝ × ℝ × ℝ) (t : ℝ), sum4 v = 1 → (model v t β σ γ μ).sum = 0) ∧
    ∀ t : ℝ, |sum4 (y t) - 1| ≤ 1 / 1000000 := by
  constructor
  · intro v t hv
    rcases v with ⟨S, E, I, R⟩
    have hv' : S + E + I + R = 1 := hv
    simp only [model, List.sum_cons, List.sum_nil, add_zero]
    nlinarith [hv']
  · intro t
    have := hy.sum4_decay t
    rw [hinit] at this
    simp only [sub_self, zero_mul] at this
    rw [sub_eq_zero.mp (by linarith [this] : sum4 (y t) - 1 = 0)]
    norm_num

/-- The constant solution `(1, 0, 0, 0)` of the system with all rates zero;
used to exhibit concrete instances of the hypotheses of the trajectory
theorems. -/
def constSol : ℝ → ℝ × ℝ × ℝ × ℝ := fun _ => (1, 0, 0, 0)

lemma constSol_solves : SolvesSEIR constSol 0 0 0 0 := by
  intro t
  refine ⟨?_, ?_, ?_, ?_⟩ <;>
    · simp only [constSol, model, List.getD, zero_mul, mul_zero, mul_one, sub_zero,
        zero_add, add_zero, zero_sub, sub_self, neg_zero, List.getD_cons_zero,
        List.getD_cons_succ]
      first
        | exact hasDerivAt_const t (1 : ℝ)
        | exact hasDerivAt_const t (0 : ℝ)
        | (norm_num; exact hasDerivAt_const t (0 : ℝ))

theorem model_sum_zero_and_sum_invariant_witness :
    SolvesSEIR constSol 0 0 0 0 ∧ sum4 (constSol 0) = 1 ∧
      |sum4 (constSol 5) - 1| ≤ 1 / 1000000 :=
  ⟨constSol_solves, by simp [constSol, sum4],
    (model_sum_zero_and_sum_invariant 0 0 0 0 le_rfl le_rfl le_rfl le_rfl
      constSol constSol_solves (by simp [constSol, sum4])).2 5⟩

/-- Claim C5: when all four parameters are zero, `model` returns the zero
vector `[0, 0, 0, 0]` on every state, and every solution of the resulting
system is constant: the state at every time equals the initial condition. -/
theorem model_all_rates_zero_constant
    (y : ℝ → ℝ × ℝ × ℝ × ℝ) (hy : SolvesSEIR y 0 0 0 0) :
    (∀ (v : ℝ × ℝ × ℝ × ℝ) (t : ℝ), model v t 0 0 0 0 = [0, 0, 0, 0]) ∧
    ∀ t : ℝ, y t = y 0 := by
  have hmodel : ∀ (v : ℝ × ℝ × ℝ × ℝ) (t : ℝ), model v t 0 0 0 0 = [0, 0, 0, 0] := by
    intro v t
    rcases v with ⟨S, E, I, R⟩
    simp [model]
  refine ⟨hmodel, ?_⟩
  have hz : ∀ (p : ℝ → ℝ) (d : ℝ → ℝ), (∀ u : ℝ, HasDerivAt p (d u) u) →
      (∀ u : ℝ, d u = 0) → ∀ t : ℝ, p t = p 0 := by
    intro p d hp hd t
    have hp' : ∀ u : ℝ, HasDerivAt p 0 u := fun u => by
      have := hp u; rwa [hd u] at this
    exact is_const_of_deriv_eq_zero (fun u => (hp' u).differentiableAt)
      (fun u => (hp' u).deriv) t 0
  intro t
  have h1 := hz (fun s => (y s).1) (fun u => (model (y u) u 0 0 0 0).getD 0 0)
    (fun u => (hy u).1) (fun u => by simp [hmodel]) t
  have h2 := hz (fun s => (y s).2.1) (fun u => (model (y u) u 0 0 0 0).getD 1 0)
    (fun u => (hy u).2.1) (fun u => by simp [hmodel]) t
  have h3 := hz (fun s => (y s).2.2.1) (fun u => (model (y u) u 0 0 0 0).getD 2 0)
    (fun u => (hy u).2.2.1) (fun u => by simp [hmodel]) t
  have h4 := hz (fun s => (y s).2.2.2) (fun u => (model (y u) u 0 0 0 0).getD 3 0)
    (fun u => (hy u).2.2.2) (fun u => by simp [hmodel]) t
  exact Prod.ext h1 (Prod.ext h2 (Prod.ext h3 h4))

theorem model_all_rates_zero_constant_witness :
    SolvesSEIR constSol 0 0 0 0 ∧ constSol 3 = constSol 0 :=
  ⟨constSol_solves, (model_all_rates_zero_constant constSol constSol_solves).2 3⟩

/-- An explicit solution of the system with `β = 0`, `σ = 1`, `γ = 0`,
`μ = 0`: the whole exposed compartment drains into the infected one, so the
infected fraction grows even though there is no transmission. -/
noncomputable def expSol : ℝ → ℝ × ℝ × ℝ × ℝ :=
  fun t => (0, Real.exp (-t), 1 - Real.exp (-t), 0)

lemma expSol_solves : SolvesSEIR expSol 0 1 0 0 := by
  have hE' : ∀ t : ℝ, HasDerivAt (fun s : ℝ => Real.exp (-s)) (-Real.exp (-t)) t := by
    intro t
    simpa using (hasDerivAt_neg t).exp
  intro t
  refine ⟨?_, ?_, ?_, ?_⟩
  · rw [model_getD_zero]
    simp only [expSol, zero_mul, mul_zero, sub_zero, zero_sub, sub_self, neg_zero]
    exact hasDerivAt_const t (0 : ℝ)
  · rw [model_getD_one]
    simp only [expSol, zero_mul, zero_add, add_zero, one_mul, zero_sub]
    exact hE' t
  · rw [model_getD_two]
    simp only [expSol, one_mul, zero_add, zero_mul, sub_zero]
    simpa using (hasDerivAt_const t (1 : ℝ)).sub (hE' t)
  · rw [model_getD_three]
    simp only [expSol, zero_mul, mul_zero, sub_self, sub_zero]
    exact hasDerivAt_const t (0 : ℝ)

/-- Claim C3 fails as stated: for the non-negative initial state
`(0, 1, 0, 0)` and non-negative parameters `σ = 1`, `γ = 0`, `μ = 0`, with
`β = 0`, the exhibited solution has a strictly increasing I component:
`I(1) > I(0)`.  E-to-I conversion produces new infections without new
exposure. -/
theorem beta_zero_monotone_counterexample :
    SolvesSEIR expSol 0 1 0 0 ∧
    (0 ≤ (expSol 0).1 ∧ 0 ≤ (expSol 0).2.1 ∧
      0 ≤ (expSol 0).2.2.1 ∧ 0 ≤ (expSol 0).2.2.2) ∧
    ((0:ℝ) ≤ 1 ∧ (0:ℝ) ≤ 0 ∧ (0:ℝ) ≤ 0) ∧
    ¬ ((expSol 1).2.2.1 ≤ (expSol 0).2.2.1) := by
  refine ⟨expSol_solves, ?_, by norm_num, ?_⟩
  · simp only [expSol]
    refine ⟨le_rfl, Real.exp_nonneg _, ?_, le_rfl⟩
    simp
  · simp only [expSol, neg_zero, Real.exp_zero, sub_self, not_le, sub_pos]
    exact Real.exp_lt_one_iff.mpr (by norm_num)

/-- Claim C3 (amended): for every non-negative initial state and non-negative
`σ`, `γ`, `μ`, when `β = 0` the E component of any solution is non-increasing
(and the E-derivative returned by `model` is non-positive at every
non-negative state); the I component, however, need not be non-increasing. -/
theorem beta_zero_E_nonincreasing
    (σ γ μ : ℝ) (hσ : 0 ≤ σ) (hγ : 0 ≤ γ) (hμ : 0 ≤ μ)
    (y : ℝ → ℝ × ℝ × ℝ × ℝ) (hy : SolvesSEIR y 0 σ γ μ)
    (hS0 : 0 ≤ (y 0).1) (hE0 : 0 ≤ (y 0).2.1)
    (hI0 : 0 ≤ (y 0).2.2.1) (hR0 : 0 ≤ (y 0).2.2.2) :
    (∀ (v : ℝ × ℝ × ℝ × ℝ) (t : ℝ), 0 ≤ v.2.1 →
      (model v t 0 σ γ μ).getD 1 0 ≤ 0) ∧
    ∀ s t : ℝ, s ≤ t → (y t).2.1 ≤ (y s).2.1 := by
  constructor
  · intro v t hv
    rw [model_getD_one]
    nlinarith
  · have hE : ∀ τ : ℝ, (y τ).2.1 = (y 0).2.1 * Real.exp (-((σ + μ) * τ)) := by
      intro τ
      apply linear_decay (σ + μ) (fun s => (y s).2.1)
      intro u
      have h := (hy u).2.1
      rw [model_getD_one] at h
      have hv : (0:ℝ) * (y u).1 * (y u).2.2.1 - (σ + μ) * (y u).2.1 =
          -(σ + μ) * (y u).2.1 := by ring
      rw [hv] at h
      exact h
    intro s t hst
    rw [hE s, hE t]
    apply mul_le_mul_of_nonneg_left _ hE0
    apply Real.exp_le_exp.mpr
    nlinarith

theorem beta_zero_E_nonincreasing_witness :
    SolvesSEIR expSol 0 1 0 0 ∧ (expSol 1).2.1 ≤ (expSol 0).2.1 :=
  ⟨expSol_solves,
    (beta_zero_E_nonincreasing 1 0 0 zero_le_one le_rfl le_rfl expSol expSol_solves
      (le_rfl) (Real.exp_nonneg _) (by simp [expSol]) (le_rfl)).2 0 1 zero_le_one⟩

/-- Modelled from the spec: scipy's `odeint` (line 70) is external to this
repository.  Per the spec's integration-driver contract, `out` is a valid
output for the derivative function `model` with parameters `β σ γ μ`,
initial state `y0` and time grid `grid` iff it samples, at each grid point,
an exact solution of the initial-value problem whose value at the first
grid point is `y0`. -/
def IsOdeintOutput (β σ γ μ : ℝ) (y0 : ℝ × ℝ × ℝ × ℝ)
    (grid : List ℝ) (out : List (ℝ × ℝ × ℝ × ℝ)) : Prop :=
  ∃ y : ℝ → ℝ × ℝ × ℝ × ℝ, SolvesSEIR y β σ γ μ ∧
    (∀ t0 : ℝ, grid.head? = some t0 → y t0 = y0) ∧ out = grid.map y

/-- Claim C7: for every initial state and every time grid whose first point
is `t = 0`, the first state vector of the returned trajectory equals the
given initial condition. -/
theorem odeint_first_point
    (β σ γ μ : ℝ) (y0 : ℝ × ℝ × ℝ × ℝ) (grid : List ℝ)
    (out : List (ℝ × ℝ × ℝ × ℝ))
    (h : IsOdeintOutput β σ γ μ y0 grid out)
    (h0 : grid.head? = some 0) :
    out.head? = some y0 := by
  obtain ⟨y, _, hinit, hout⟩ := h
  subst hout
  cases grid with
  | nil => simp at h0
  | cons a l =>
      have ha : a = 0 := by simpa using h0
      subst ha
      simpa using hinit 0 rfl

lemma isOdeintOutput_constSol (grid : List ℝ) :
    IsOdeintOutput 0 0 0 0 (1, 0, 0, 0) grid (grid.map constSol) :=
  ⟨constSol, constSol_solves, fun _ _ => rfl, rfl⟩

theorem odeint_first_point_witness :
    IsOdeintOutput 0 0 0 0 (1, 0, 0, 0) [0, 1] ([0, 1].map constSol) ∧
      ([0, 1].map constSol).head? = some ((1 : ℝ), (0 : ℝ), (0 : ℝ), (0 : ℝ)) :=
  ⟨isOdeintOutput_constSol [0, 1],
    odeint_first_point 0 0 0 0 (1, 0, 0, 0) [0, 1] ([0, 1].map constSol)
      (isOdeintOutput_constSol [0, 1]) rfl⟩

/-- A figure as assembled by the script's plotting section (lines 74-82):
the four labelled series, the axis labels, the title, whether a legend was
added, and whether the window was shown. -/
structure Figure where
  series : List (String × List ℝ)
  xlabel : String
  ylabel : String
  title : String
  legend : Bool
  shown : Bool

/-- The plotting section of `modelo.py` (lines 72-82): the solution is
transposed into the four series `S`, `E`, `I`, `R`, each is plotted with its
label, the axes are labelled, the title is set and the window is shown. -/
def scriptFigure (solution : List (ℝ × ℝ × ℝ × ℝ)) : Figure :=
  let S := solution.map (fun v => v.1)
  let E := solution.map (fun v => v.2.1)
  let I := solution.map (fun v => v.2.2.1)
  let R := solution.map (fun v => v.2.2.2)
  { series := [("Suscetíveis", S), ("Expostos", E), ("Infectados", I),
      ("Recuperados", R)],
    xlabel := "Tempo",
    ylabel := "Fração da população",
    title := "Modelo SEIR da Epidemiologia com Demografia",
    legend := true,
    shown := true }

/-- Modelled from the spec: the integrator may signal a numerical failure;
the script (lines 70-82) runs the integration and then the plotting with no
try/except around either, so a failure short-circuits the rest of the
script.  The script body is embedded as a computation in the `Except`
monad. -/
def runScript (odeintResult : Except String (List (ℝ × ℝ × ℝ × ℝ))) :
    Except String Figure := do
  let solution ← odeintResult
  pure (scriptFigure solution)

/-- Claim C9: if the integrator signals a numerical failure, the error
propagates unhandled through the script: the run's result is exactly that
error, and no figure is ever produced (the plotting steps never execute). -/
theorem integrator_error_propagates (e : String) :
    runScript (Except.error e) = Except.error e ∧
      ∀ fig : Figure, runScript (Except.error e) ≠ Except.ok fig := by
  constructor
  · rfl
  · intro fig h
    simp [runScript] at h

/-- With the script's parameters (`μ = 0.0025 > 0`) no solution through the
script's initial state keeps the component sum constant: the sum obeys
`N' = μ (1 - N)` and `N 0 = 1.00099 ≠ 1`, so it strictly decays toward 1. -/
lemma script_sum_not_conserved :
    ¬ ∃ y : ℝ → ℝ × ℝ × ℝ × ℝ,
      SolvesSEIR y (beta : ℝ) (sigma : ℝ) (gamma : ℝ) (mu : ℝ) ∧
      y 0 = ((S0 : ℝ), (E0 : ℝ), (I0 : ℝ), (R0 : ℝ)) ∧
      ∀ t : ℝ, sum4 (y t) = (S0 : ℝ) + (E0 : ℝ) + (I0 : ℝ) + (R0 : ℝ) := by
  rintro ⟨y, hy, hinit, hconst⟩
  have hC : (S0 : ℝ) + (E0 : ℝ) + (I0 : ℝ) + (R0 : ℝ) = 1.00099 := by
    norm_num [S0, E0, I0, R0]
  have hdec := hy.sum4_decay 1
  rw [hconst 1, hconst 0, hC] at hdec
  have hexp : Real.exp (-((mu : ℝ) * 1)) = 1 := by nlinarith [hdec]
  rw [Real.exp_eq_one_iff] at hexp
  norm_num [mu] at hexp

/-- Claim C10 fails in its conservation part: the script's initial components
do sum exactly to `1.00099`, but the trajectory's component sum is not
conserved at `1.00099`: no solution of the system with the script's
parameters and initial state has a constant component sum (with
`μ = 0.0025 > 0` the sum strictly decays toward 1). -/
theorem initial_sum_conserved_counterexample :
    (S0 : ℝ) + (E0 : ℝ) + (I0 : ℝ) + (R0 : ℝ) = 1.00099 ∧
    ¬ ∃ y : ℝ → ℝ × ℝ × ℝ × ℝ,
      SolvesSEIR y (beta : ℝ) (sigma : ℝ) (gamma : ℝ) (mu : ℝ) ∧
      y 0 = ((S0 : ℝ), (E0 : ℝ), (I0 : ℝ), (R0 : ℝ)) ∧
      ∀ t : ℝ, sum4 (y t) = (S0 : ℝ) + (E0 : ℝ) + (I0 : ℝ) + (R0 : ℝ) :=
  ⟨by norm_num [S0, E0, I0, R0], script_sum_not_conserved⟩

/-- Claim C10 (amended): in exact arithmetic the script's initial components
sum to `1.00099`, which is strictly greater than 1, so the precondition
"initialized to 1" of the sum-conservation property indeed fails for the
script's own run; however the component sum is then conserved at no value at
all: it is not constant (it decays toward 1 at rate `μ`), rather than being
"conserved at 1.00099". -/
theorem initial_sum_exceeds_one_amended :
    (S0 + E0 + I0 + R0 = 1.00099 ∧ (1 : ℚ) < S0 + E0 + I0 + R0) ∧
    ¬ ∃ y : ℝ → ℝ × ℝ × ℝ × ℝ,
      SolvesSEIR y (beta : ℝ) (sigma : ℝ) (gamma : ℝ) (mu : ℝ) ∧
      y 0 = ((S0 : ℝ), (E0 : ℝ), (I0 : ℝ), (R0 : ℝ)) ∧
      ∀ t : ℝ, sum4 (y t) = (S0 : ℝ) + (E0 : ℝ) + (I0 : ℝ) + (R0 : ℝ) :=
  ⟨⟨by norm_num [S0, E0, I0, R0], by norm_num [S0, E0, I0, R0]⟩,
    script_sum_not_conserved⟩

/-- The SEIR system repackaged as a vector field on the state space,
assembled from the entries of the list returned by `model` (the time
argument is irrelevant since the system is time-invariant). -/
def seirField (β σ γ μ : ℝ) (v : ℝ × ℝ × ℝ × ℝ) : ℝ × ℝ × ℝ × ℝ :=
  ((model v 0 β σ γ μ).getD 0 0, (model v 0 β σ γ μ).getD 1 0,
   (model v 0 β σ γ μ).getD 2 0, (model v 0 β σ γ μ).getD 3 0)

lemma seirField_S (β σ γ μ : ℝ) (v : ℝ × ℝ × ℝ × ℝ) :
    (seirField β σ γ μ v).1 = μ - β * v.1 * v.2.2.1 - μ * v.1 := rfl

lemma seirField_E (β σ γ μ : ℝ) (v : ℝ × ℝ × ℝ × ℝ) :
    (seirField β σ γ μ v).2.1 = β * v.1 * v.2.2.1 - (σ + μ) * v.2.1 := rfl

lemma seirField_I (β σ γ μ : ℝ) (v : ℝ × ℝ × ℝ × ℝ) :
    (seirField β σ γ μ v).2.2.1 = σ * v.2.1 - (γ + μ) * v.2.2.1 := rfl

lemma seirField_R (β σ γ μ : ℝ) (v : ℝ × ℝ × ℝ × ℝ) :
    (seirField β σ γ μ v).2.2.2 = γ * v.2.2.1 - μ * v.2.2.2 := rfl

/-- A solution in the componentwise sense is a solution of the vector-field
equation. -/
lemma SolvesSEIR.hasDerivAt_field {y : ℝ → ℝ × ℝ × ℝ × ℝ} {β σ γ μ : ℝ}
    (h : SolvesSEIR y β σ γ μ) (t : ℝ) :
    HasDerivAt y (seirField β σ γ μ (y t)) t := by
  obtain ⟨h1, h2, h3, h4⟩ := h t
  exact h1.prod (h2.prod (h3.prod h4))

/-- Bilinear estimate used for the transmission term `β S I`. -/
lemma abs_prod_diff_le (a x1 x3 y1 y3 RR d : ℝ)
    (hx1 : |x1| ≤ RR) (hy3 : |y3| ≤ RR) (h33 : |x3 - y3| ≤ d)
    (h11 : |x1 - y1| ≤ d) (hd : 0 ≤ d) (hRR : 0 ≤ RR) :
    |a * x1 * x3 - a * y1 * y3| ≤ 2 * |a| * RR * d := by
  have e : a * x1 * x3 - a * y1 * y3 = a * x1 * (x3 - y3) + a * y3 * (x1 - y1) := by
    ring
  rw [e]
  calc |a * x1 * (x3 - y3) + a * y3 * (x1 - y1)|
      ≤ |a * x1 * (x3 - y3)| + |a * y3 * (x1 - y1)| := abs_add _ _
    _ = |a| * |x1| * |x3 - y3| + |a| * |y3| * |x1 - y1| := by
        rw [abs_mul, abs_mul, abs_mul, abs_mul]
    _ ≤ |a| * RR * d + |a| * RR * d := by
        gcongr <;> first | exact abs_nonneg _ | positivity
    _ = 2 * |a| * RR * d := by ring

/-- The SEIR vector field is Lipschitz on every closed ball of the state
space. -/
lemma seirField_lipschitzOnWith (β σ γ μ RR : ℝ) (hRR : 0 ≤ RR) :
    LipschitzOnWith (2 * |β| * RR + |σ| + |γ| + 2 * |μ|).toNNReal
      (seirField β σ γ μ) (Metric.closedBall (0 : ℝ × ℝ × ℝ × ℝ) RR) := by
  apply LipschitzOnWith.of_dist_le_mul
  intro x hx y hy
  have hxn : ‖x‖ ≤ RR := by
    simpa [Metric.mem_closedBall, dist_zero_right] using hx
  have hyn : ‖y‖ ≤ RR := by
    simpa [Metric.mem_closedBall, dist_zero_right] using hy
  have hx1 : |x.1| ≤ RR := by
    have := (norm_fst_le x).trans hxn
    simpa [Real.norm_eq_abs] using this
  have hy3 : |y.2.2.1| ≤ RR := by
    have := ((norm_fst_le y.2.2).trans ((norm_snd_le y.2).trans (norm_snd_le y))).trans hyn
    simpa [Real.norm_eq_abs] using this
  have hd0 : (0 : ℝ) ≤ dist x y := dist_nonneg
  have hd1 : |x.1 - y.1| ≤ dist x y := by
    have h : dist x.1 y.1 ≤ dist x y := by
      rw [Prod.dist_eq]; exact le_max_left _ _
    simpa [Real.dist_eq] using h
  have hd2 : |x.2.1 - y.2.1| ≤ dist x y := by
    have h : dist x.2.1 y.2.1 ≤ dist x y := by
      calc dist x.2.1 y.2.1 ≤ dist x.2 y.2 := by
            rw [Prod.dist_eq]; exact le_max_left _ _
        _ ≤ dist x y := by rw [Prod.dist_eq]; exact le_max_right _ _
    simpa [Real.dist_eq] using h
  have hd3 : |x.2.2.1 - y.2.2.1| ≤ dist x y := by
    have h : dist x.2.2.1 y.2.2.1 ≤ dist x y := by
      calc dist x.2.2.1 y.2.2.1 ≤ dist x.2.2 y.2.2 := by
            rw [Prod.dist_eq]; exact le_max_left _ _
        _ ≤ dist x.2 y.2 := by rw [Prod.dist_eq]; exact le_max_right _ _
        _ ≤ dist x y := by rw [Prod.dist_eq]; exact le_max_right _ _
    simpa [Real.dist_eq] using h
  have hd4 : |x.2.2.2 - y.2.2.2| ≤ dist x y := by
    have h : dist x.2.2.2 y.2.2.2 ≤ dist x y := by
      calc dist x.2.2.2 y.2.2.2 ≤ dist x.2.2 y.2.2 := by
            rw [Prod.dist_eq]; exact le_max_right _ _
        _ ≤ dist x.2 y.2 := by rw [Prod.dist_eq]; exact le_max_right _ _
        _ ≤ dist x y := by rw [Prod.dist_eq]; exact le_max_right _ _
    simpa [Real.dist_eq] using h
  have htrans : |β * x.1 * x.2.2.1 - β * y.1 * y.2.2.1| ≤ 2 * |β| * RR * dist x y :=
    abs_prod_diff_le β x.1 x.2.2.1 y.1 y.2.2.1 RR (dist x y) hx1 hy3 hd3 hd1 hd0 hRR
  have hK : ((2 * |β| * RR + |σ| + |γ| + 2 * |μ|).toNNReal : ℝ) =
      2 * |β| * RR + |σ| + |γ| + 2 * |μ| :=
    Real.coe_toNNReal _ (by positivity)
  rw [hK, Prod.dist_eq, Prod.dist_eq, Prod.dist_eq]
  have haux : ∀ q : ℝ, 0 ≤ q → 0 ≤ q * dist x y := fun q hq => mul_nonneg hq hd0
  refine max_le ?_ (max_le ?_ (max_le ?_ ?_))
  · rw [Real.dist_eq, seirField_S, seirField_S]
    have e : (μ - β * x.1 * x.2.2.1 - μ * x.1) - (μ - β * y.1 * y.2.2.1 - μ * y.1) =
        -(β * x.1 * x.2.2.1 - β * y.1 * y.2.2.1) + -(μ * (x.1 - y.1)) := by ring
    rw [e]
    refine (abs_add _ _).trans ?_
    rw [abs_neg, abs_neg, abs_mul]
    have h2 : |μ| * |x.1 - y.1| ≤ |μ| * dist x y :=
      mul_le_mul_of_nonneg_left hd1 (abs_nonneg μ)
    nlinarith [haux |σ| (abs_nonneg σ), haux |γ| (abs_nonneg γ),
      haux |μ| (abs_nonneg μ)]
  · rw [Real.dist_eq, seirField_E, seirField_E]
    have e : (β * x.1 * x.2.2.1 - (σ + μ) * x.2.1) -
        (β * y.1 * y.2.2.1 - (σ + μ) * y.2.1) =
        (β * x.1 * x.2.2.1 - β * y.1 * y.2.2.1) + -((σ + μ) * (x.2.1 - y.2.1)) := by
      ring
    rw [e]
    refine (abs_add _ _).trans ?_
    rw [abs_neg, abs_mul]
    have hsm : |σ + μ| ≤ |σ| + |μ| := abs_add σ μ
    have h2 : |σ + μ| * |x.2.1 - y.2.1| ≤ (|σ| + |μ|) * dist x y :=
      mul_le_mul hsm hd2 (abs_nonneg _) (by positivity)
    nlinarith [haux |γ| (abs_nonneg γ), haux |μ| (abs_nonneg μ)]
  · rw [Real.dist_eq, seirField_I, seirField_I]
    have e : (σ * x.2.1 - (γ + μ) * x.2.2.1) - (σ * y.2.1 - (γ + μ) * y.2.2.1) =
        σ * (x.2.1 - y.2.1) + -((γ + μ) * (x.2.2.1 - y.2.2.1)) := by ring
    rw [e]
    refine (abs_add _ _).trans ?_
    rw [abs_neg, abs_mul, abs_mul]
    have h1 : |σ| * |x.2.1 - y.2.1| ≤ |σ| * dist x y :=
      mul_le_mul_of_nonneg_left hd2 (abs_nonneg σ)
    have hgm : |γ + μ| ≤ |γ| + |μ| := abs_add γ μ
    have h2 : |γ + μ| * |x.2.2.1 - y.2.2.1| ≤ (|γ| + |μ|) * dist x y :=
      mul_le_mul hgm hd3 (abs_nonneg _) (by positivity)
    nlinarith [haux (2 * |β| * RR) (by positivity), haux |μ| (abs_nonneg μ)]
  · rw [Real.dist_eq, seirField_R, seirField_R]
    have e : (γ * x.2.2.1 - μ * x.2.2.2) - (γ * y.2.2.1 - μ * y.2.2.2) =
        γ * (x.2.2.1 - y.2.2.1) + -(μ * (x.2.2.2 - y.2.2.2)) := by ring
    rw [e]
    refine (abs_add _ _).trans ?_
    rw [abs_neg, abs_mul, abs_mul]
    have h1 : |γ| * |x.2.2.1 - y.2.2.1| ≤ |γ| * dist x y :=
      mul_le_mul_of_nonneg_left hd3 (abs_nonneg γ)
    have h2 : |μ| * |x.2.2.2 - y.2.2.2| ≤ |μ| * dist x y :=
      mul_le_mul_of_nonneg_left hd4 (abs_nonneg μ)
    nlinarith [haux (2 * |β| * RR) (by positivity), haux |σ| (abs_nonneg σ),
      haux |μ| (abs_nonneg μ)]

/-- Uniqueness of SEIR solutions forward in time: two solutions with the
same parameters that agree at time `a` agree at every later time.  The
quadratic vector field is Lipschitz on every ball, and both solutions stay
in a common ball on a compact time interval. -/
lemma seir_solution_unique (β σ γ μ : ℝ) (f g : ℝ → ℝ × ℝ × ℝ × ℝ)
    (hf : SolvesSEIR f β σ γ μ) (hg : SolvesSEIR g β σ γ μ)
    (a : ℝ) (hinit : f a = g a) (t : ℝ) (hat : a ≤ t) : f t = g t := by
  have hfd : ∀ u : ℝ, HasDerivAt f (seirField β σ γ μ (f u)) u := hf.hasDerivAt_field
  have hgd : ∀ u : ℝ, HasDerivAt g (seirField β σ γ μ (g u)) u := hg.hasDerivAt_field
  have hfc : ContinuousOn f (Icc a t) :=
    (continuous_iff_continuousAt.mpr fun u => (hfd u).continuousAt).continuousOn
  have hgc : ContinuousOn g (Icc a t) :=
    (continuous_iff_continuousAt.mpr fun u => (hgd u).continuousAt).continuousOn
  obtain ⟨Cf, hCf⟩ := (isCompact_Icc : IsCompact (Icc a t)).exists_bound_of_continuousOn hfc
  obtain ⟨Cg, hCg⟩ := (isCompact_Icc : IsCompact (Icc a t)).exists_bound_of_continuousOn hgc
  have hRR : (0 : ℝ) ≤ max 0 (max Cf Cg) := le_max_left _ _
  have hmemf : ∀ u ∈ Ico a t, f u ∈
      Metric.closedBall (0 : ℝ × ℝ × ℝ × ℝ) (max 0 (max Cf Cg)) := by
    intro u hu
    rw [Metric.mem_closedBall, dist_zero_right]
    exact (hCf u (Ico_subset_Icc_self hu)).trans
      ((le_max_left Cf Cg).trans (le_max_right 0 _))
  have hmemg : ∀ u ∈ Ico a t, g u ∈
      Metric.closedBall (0 : ℝ × ℝ × ℝ × ℝ) (max 0 (max Cf Cg)) := by
    intro u hu
    rw [Metric.mem_closedBall, dist_zero_right]
    exact (hCg u (Ico_subset_Icc_self hu)).trans
      ((le_max_right Cf Cg).trans (le_max_right 0 _))
  have key := ODE_solution_unique_of_mem_Icc_right
    (v := fun _ : ℝ => seirField β σ γ μ)
    (s := fun _ : ℝ => Metric.closedBall (0 : ℝ × ℝ × ℝ × ℝ) (max 0 (max Cf Cg)))
    (fun _ => seirField_lipschitzOnWith β σ γ μ (max 0 (max Cf Cg)) hRR)
    hfc (fun u _ => (hfd u).hasDerivWithinAt) hmemf
    hgc (fun u _ => (hgd u).hasDerivWithinAt) hmemg hinit
  exact key (right_mem_Icc.mpr hat)

/-- Claim C8: the integration step is deterministic: for identical inputs
(derivative function, initial state, ordered time grid, parameters), any two
valid output trajectories are identical.  In the exact-solution model this
is uniqueness of the solution of the initial-value problem. -/
theorem odeint_deterministic
    (β σ γ μ : ℝ) (y0 : ℝ × ℝ × ℝ × ℝ) (grid : List ℝ)
    (hgrid : grid.Sorted (· ≤ ·)) (out1 out2 : List (ℝ × ℝ × ℝ × ℝ))
    (h1 : IsOdeintOutput β σ γ μ y0 grid out1)
    (h2 : IsOdeintOutput β σ γ μ y0 grid out2) :
    out1 = out2 := by
  obtain ⟨y1, hs1, hi1, ho1⟩ := h1
  obtain ⟨y2, hs2, hi2, ho2⟩ := h2
  subst ho1
  subst ho2
  cases grid with
  | nil => rfl
  | cons t0 rest =>
      have h10 : y1 t0 = y0 := hi1 t0 rfl
      have h20 : y2 t0 = y0 := hi2 t0 rfl
      have heq0 : y1 t0 = y2 t0 := h10.trans h20.symm
      have hmin : ∀ u ∈ rest, t0 ≤ u := (List.sorted_cons.mp hgrid).1
      simp only [List.map_cons]
      rw [heq0]
      congr 1
      apply List.map_congr_left
      intro u hu
      exact seir_solution_unique β σ γ μ y1 y2 hs1 hs2 t0 heq0 u (hmin u hu)

theorem odeint_deterministic_witness :
    ([(0 : ℝ), 1].Sorted (· ≤ ·)) ∧
    IsOdeintOutput 0 0 0 0 (1, 0, 0, 0) [0, 1] ([0, 1].map constSol) ∧
    [0, 1].map constSol = [0, 1].map constSol := by
  have hsorted : ([(0 : ℝ), 1].Sorted (· ≤ ·)) := by
    simp [List.sorted_cons]
  exact ⟨hsorted, isOdeintOutput_constSol [0, 1],
    odeint_deterministic 0 0 0 0 (1, 0, 0, 0) [0, 1] hsorted
      ([0, 1].map constSol) ([0, 1].map constSol)
      (isOdeintOutput_constSol [0, 1]) (isOdeintOutput_constSol [0, 1])⟩
